/-
Verification of the lessgo route/handler identity registry and pooled dispatch
adapter (files `apihandler.go` and `engine/fasthttp/server.go`).

The Go code is shallowly embedded: Go structs become Lean structures, the
package-level mutable maps and the global ordered handler list become explicit
state records threaded through the functions, and Go slices become Lean lists.
Go's `reflect`-based symbolic identity of a callback (a function's
fully-qualified name, or the runtime type's name for a non-function value) is
not computable inside Lean, so a callback is embedded as the outcome of that
reflection: either a function with its fully-qualified name or a non-function
value with its type name.  Loops are translated into structural recursions; a
loop whose measure is `count - i` is given that measure as an explicit
structural argument so that every definition evaluates by kernel reduction.
-/
import Mathlib

namespace Lessgo

/-- A declared request parameter (`Param` in apihandler.go).  The Go field
`Format interface\x7b\x7d` carries only an example value and is never read by the
functions under verification, so it is omitted from the embedding. -/
structure Param where
  Name : String
  In : String
  Required : Bool
  Desc : String
deriving DecidableEq

/-- The dispatchable callback as seen through Go reflection: `reflect.ValueOf`
either yields a value of kind `Func`, whose symbolic identity is
`runtime.FuncForPC(v.Pointer()).Name()`, or a non-function value whose symbolic
identity is `t.String()` (its runtime type's name).  The embedding records the
outcome of that inspection. -/
inductive Callback where
  | func (fqName : String)
  | nonFunc (typeName : String)
deriving DecidableEq

/-- The symbolic identity string the Go code derives from a callback: the
fully-qualified function name for a function, the runtime type name otherwise
(the `reflect.Func` dispatch shared by `initId` and `handleWareUri`). -/
def symbolicId : Callback → String
  | .func n => n
  | .nonFunc t => t

/-- Modelled from the spec: the request-method constants (referenced by
`initTypes` in apihandler.go) are defined elsewhere in the repository, outside
the files under verification; the spec calls them "the full standard method
set". -/
def CONNECT : String := "CONNECT"

/-- Modelled from the spec: standard method constant. -/
def DELETE : String := "DELETE"

/-- Modelled from the spec: standard method constant. -/
def GET : String := "GET"

/-- Modelled from the spec: standard method constant. -/
def HEAD : String := "HEAD"

/-- Modelled from the spec: standard method constant. -/
def OPTIONS : String := "OPTIONS"

/-- Modelled from the spec: standard method constant. -/
def PATCH : String := "PATCH"

/-- Modelled from the spec: standard method constant. -/
def POST : String := "POST"

/-- Modelled from the spec: standard method constant. -/
def PUT : String := "PUT"

/-- Modelled from the spec: standard method constant. -/
def TRACE : String := "TRACE"

/-- Modelled from the spec: `GetMethodFromType` (referenced by `initTypes` in
apihandler.go) is defined elsewhere in the repository, outside the files under
verification.  The spec says declared request types are resolved "to
dispatch-level method tokens" and treats case variants such as "get" as the
same logical method as "GET", so resolution is modelled as upper-casing the
declared type (written via `Char.toUpper` on the character list so that it
evaluates by kernel reduction). -/
def GetMethodFromType (t : String) : String := String.mk (t.data.map Char.toUpper)

/-- Go compares strings byte-lexicographically (`sort.Strings`, `<` on ids).
The embedding compares the underlying character lists with the lexicographic
order on `List Char`, which agrees with Go on ASCII data and, unlike `String`'s
iterator-based order, evaluates by kernel reduction. -/
def strLe (x y : String) : Prop := x.data ≤ y.data

/-- Strict byte-lexicographic order on strings, as used by `setApiHandler`'s
`vh.Id() < vh2.Id()` comparison. -/
def strLt (x y : String) : Prop := x.data < y.data

instance strLe.decide : DecidableRel strLe := fun x y =>
  inferInstanceAs (Decidable (x.data ≤ y.data))

instance strLt.decide : DecidableRel strLt := fun x y =>
  inferInstanceAs (Decidable (x.data < y.data))

instance strLe.total : IsTotal String strLe := ⟨fun x y => le_total x.data y.data⟩

instance strLe.trans : IsTrans String strLe := ⟨fun _ _ _ h h' => le_trans h h'⟩

/-- An operation descriptor (`ApiHandler` in apihandler.go).  The per-instance
`sync.Mutex` field only serializes `init` on a single instance and carries no
data, so it is omitted. -/
structure ApiHandler where
  Desc : String
  Types : List String
  methods : List String
  Params : List Param
  Handler : Callback
  id : String
  suffix : String
  inited : Bool
deriving DecidableEq

/-- The body of the sort-and-dedup loop of `initTypes`: Go iterates `i` from 0
while `i < count`, removing `Types[i]` when it equals `Types[i-1]` (with
`count` decremented and `i` left in place) and otherwise appending
`GetMethodFromType(Types[i])` to `methods` and advancing `i`.  Both branches
decrease `count - i` by exactly one, so the loop is embedded structurally on
that difference; `types.take i ++ types.drop (i+1)` is Go's
`append(a.Types[:i], a.Types[i+1:]...)`. -/
def typesLoop : Nat → List String → List String → Nat → List String × List String
  | 0, types, methods, _ => (types, methods)
  | k + 1, types, methods, i =>
    if 0 < i ∧ types.getD (i - 1) "" = types.getD i "" then
      typesLoop k (types.take i ++ types.drop (i + 1)) methods i
    else
      typesLoop k types (methods ++ [GetMethodFromType (types.getD i "")]) (i + 1)

/-- `(*ApiHandler).initTypes`: `count` is the length of the declared list
before defaulting, an empty declared list is replaced by the full standard
method set, the list is sorted (`sort.Strings`), and the dedup/resolution loop
runs with the original `count` as its bound. -/
def ApiHandler.initTypes (a : ApiHandler) : ApiHandler :=
  let count := a.Types.length
  let types0 := if count = 0 then
      [CONNECT, DELETE, GET, HEAD, OPTIONS, PATCH, POST, PUT, TRACE]
    else a.Types
  let sorted := List.insertionSort strLe types0
  let r := typesLoop (count - 0) sorted a.methods 0
  { a with Types := r.1, methods := r.2 }

/-- The loop of `initParamsAndSuffix` over the declared parameter list: a
path-located parameter has its `Required` flag forced to true and contributes
`"/:" + Name` to the suffix; every other parameter is left unchanged. -/
def paramsLoop : List Param → List Param × String
  | [] => ([], "")
  | p :: rest =>
    if p.In = "path" then
      let r := paramsLoop rest
      ({ p with Required := true } :: r.1, "/:" ++ p.Name ++ r.2)
    else
      let r := paramsLoop rest
      (p :: r.1, r.2)

/-- `(*ApiHandler).initParamsAndSuffix`: resets the suffix and walks the
declared parameters in order. -/
def ApiHandler.initParamsAndSuffix (a : ApiHandler) : ApiHandler :=
  let r := paramsLoop a.Params
  { a with Params := r.1, suffix := r.2 }

/-- `(*ApiHandler).initId`: `add = "[" + suffix + "][" + Desc + "]"` followed
by `"[" + t + "]"` for each entry of `Types`, and the id is the callback's
symbolic identity concatenated with `add`. -/
def ApiHandler.initId (a : ApiHandler) : ApiHandler :=
  let add := a.Types.foldl (fun acc m => acc ++ "[" ++ m ++ "]")
    ("[" ++ a.suffix ++ "][" ++ a.Desc ++ "]")
  { a with id := symbolicId a.Handler ++ add }

/-- Association-list embedding of a Go `map[string]V`: lookup finds the entry
for a key, insertion replaces the entry for an existing key and otherwise adds
one. -/
def lookupA {α : Type} : List (String × α) → String → Option α
  | [], _ => none
  | (k', v) :: rest, k => if k' = k then some v else lookupA rest k

/-- Go map assignment `m[k] = v`: replace-or-add. -/
def insertA {α : Type} : List (String × α) → String → α → List (String × α)
  | [], k, v => [(k, v)]
  | (k', v') :: rest, k, v =>
    if k' = k then (k, v) :: rest else (k', v') :: insertA rest k v

/-- The package-level mutable state touched by `ApiHandler` registration: the
`apiHandlerMap` map and the global ordered list `DefLessgo.apiHandlers`.  The
`sync.RWMutex` guarding them serializes each map/list operation and carries no
data, so the embedding threads this record instead. -/
structure RegState where
  apiHandlerMap : List (String × ApiHandler)
  apiHandlers : List ApiHandler
deriving DecidableEq

/-- `getApiHandler`: a map read (Go returns the zero value `nil` for an absent
key, embedded as `none`). -/
def getApiHandler (st : RegState) (id : String) : Option ApiHandler :=
  lookupA st.apiHandlerMap id

/-- The ordered-insertion loop of `setApiHandler` over `DefLessgo.apiHandlers`:
the new descriptor is spliced in before the first existing descriptor with a
strictly greater id, and appended at the end when there is none. -/
def insertHandlerList (vh : ApiHandler) : List ApiHandler → List ApiHandler
  | [] => [vh]
  | vh2 :: rest =>
    if strLt vh.id vh2.id then vh :: vh2 :: rest
    else vh2 :: insertHandlerList vh rest

/-- `setApiHandler`: stores the descriptor in the map and ordered-inserts it
into the global descriptor list. -/
def setApiHandler (st : RegState) (vh : ApiHandler) : RegState :=
  { apiHandlerMap := insertA st.apiHandlerMap vh.id vh,
    apiHandlers := insertHandlerList vh st.apiHandlers }

/-- The initialization sequence of the un-inited branch of
`(*ApiHandler).init`: `initTypes`, `initParamsAndSuffix`, `initId`, then
`a.inited = true`. -/
def ApiHandler.initFields (a : ApiHandler) : ApiHandler :=
  { a.initTypes.initParamsAndSuffix.initId with inited := true }

/-- `(*ApiHandler).init`: an already-inited descriptor just looks itself up;
otherwise the descriptor is derived, an existing descriptor under the same id
is returned if present, and the new descriptor is stored and returned
otherwise.  The Go function returns a possibly-nil pointer, embedded as an
`Option`. -/
def ApiHandler.init (a : ApiHandler) (st : RegState) :
    Option ApiHandler × RegState :=
  if a.inited then (getApiHandler st a.id, st)
  else
    match getApiHandler st a.initFields.id with
    | some h => (some h, st)
    | none => (some a.initFields, setApiHandler st a.initFields)

/-- `ApiHandler.Reg`: the registration entry point.  Its Go receiver is a
value, so each `Reg` call works on a fresh copy of the declared descriptor
(with `inited` still false) and runs `init` on it. -/
def ApiHandler.Reg (a : ApiHandler) (st : RegState) :
    Option ApiHandler × RegState :=
  a.init st

/-! Embedding of Go's `path.Clean` (standard library), called by
`creatPrefix`.  `Clean` walks the path with a read cursor and a write buffer;
the buffer is embedded as a reversed character list (`out`), and the main loop
gets an explicit fuel argument equal to the remaining input length (each
iteration consumes at least one input character, so the fuel never runs out)
to keep the recursion structural. -/

/-- The backtracking step of `Clean` for a `..` segment when the buffer holds
more than the `dotdot` barrier: Go decrements the write cursor once and then
keeps decrementing while the character just dropped is not a separator; on the
reversed buffer this pops the trailing element together with its leading
slash. -/
def popLoop (dotdot : Nat) (last : Char) : List Char → List Char
  | [] => []
  | c :: rest =>
    if dotdot < rest.length + 1 ∧ last ≠ '/' then popLoop dotdot c rest
    else c :: rest

/-- The unconditional first decrement (`out.w--`) followed by the backtracking
loop. -/
def popElement (dotdot : Nat) : List Char → List Char
  | [] => []
  | c :: rest => popLoop dotdot c rest

/-- The inner copy loop of `Clean`'s default case: append characters to the
buffer until the next separator or the end of the input; returns the new
buffer and the remaining input. -/
def copyElem : List Char → List Char → List Char × List Char
  | [], out => (out, [])
  | c :: rest, out =>
    if c = '/' then (out, c :: rest) else copyElem rest (c :: out)

/-- The main loop of `path.Clean`: skip separators, skip `.` segments, handle
`..` segments (backtrack above the barrier; for a relative path accumulate a
literal `..` and raise the barrier; for a rooted path discard), and copy every
other segment preceded by a separator unless the buffer is at its initial
position. -/
def cleanLoop (rooted : Bool) : Nat → List Char → List Char → Nat → List Char
  | _, [], out, _ => out
  | 0, _ :: _, out, _ => out
  | fuel + 1, c :: rest, out, dotdot =>
    if c = '/' then cleanLoop rooted fuel rest out dotdot
    else if c = '.' ∧ (rest.head? = none ∨ rest.head? = some '/') then
      cleanLoop rooted fuel rest out dotdot
    else if c = '.' ∧ rest.head? = some '.' ∧
        (rest.tail.head? = none ∨ rest.tail.head? = some '/') then
      if dotdot < out.length then
        cleanLoop rooted fuel rest.tail (popElement dotdot out) dotdot
      else if rooted = false then
        let out2 := if 0 < out.length then '/' :: out else out
        cleanLoop rooted fuel rest.tail ('.' :: '.' :: out2) (out2.length + 2)
      else
        cleanLoop rooted fuel rest.tail out dotdot
    else
      let out2 :=
        if (rooted = true ∧ out.length ≠ 1) ∨ (rooted = false ∧ out.length ≠ 0)
        then '/' :: out else out
      let r := copyElem (c :: rest) out2
      cleanLoop rooted fuel r.2 r.1 dotdot

/-- Go `path.Clean`: the empty path cleans to `"."`; a rooted path starts the
buffer past an initial separator with the `dotdot` barrier at 1; an empty
result buffer yields `"."`. -/
def pathClean (s : String) : String :=
  if s = "" then "."
  else
    let l := s.data
    if l.head? = some '/' then
      let out := cleanLoop true l.length l.tail ['/'] 1
      if out.isEmpty then "." else String.mk out.reverse
    else
      let out := cleanLoop false l.length l [] 0
      if out.isEmpty then "." else String.mk out.reverse

/-- Go `path.Join` for two elements (as called `path.Join("/", prefix)`):
empty elements are skipped, the non-empty ones joined with a separator, and
the result cleaned; joining two empty strings is `""`. -/
def pathJoin2 (a b : String) : String :=
  if a = "" ∧ b = "" then ""
  else if b = "" then pathClean a
  else if a = "" then pathClean b
  else pathClean (a ++ "/" ++ b)

/-- `strings.Split(s, "/:")` on the character list: chunks between
non-overlapping occurrences of the two-character marker `/:`. -/
def splitParts : List Char → List (List Char)
  | [] => [[]]
  | [c] => [[c]]
  | c1 :: c2 :: rest =>
    if c1 = '/' ∧ c2 = ':' then [] :: splitParts rest
    else
      match splitParts (c2 :: rest) with
      | [] => [[c1]]
      | p :: ps => (c1 :: p) :: ps

/-- `strings.Join(parts, "/:")` on character lists, used to rebuild the
parameter part of a split prefix. -/
def joinMarker : List (List Char) → List Char
  | [] => []
  | [x] => x
  | x :: y :: r => x ++ '/' :: ':' :: joinMarker (y :: r)

/-- Whether a character list contains the path-parameter marker `/:`. -/
def hasMarker : List Char → Bool
  | [] => false
  | c :: rest => (c == '/' && rest.head? == some ':') || hasMarker rest

/-- `creatPrefix`: anchor the raw prefix under the root and clean it
(`path.Clean(path.Join("/", prefix))`), drop everything from the first `?`
(`strings.Split(cleanPrefix, "?")[0]`), then split at the `/:` markers:
`prefixPath` is the chunk before the first marker and `prefixParam` rebuilds
everything from the first marker on (empty when there is no marker). -/
def creatPrefix (rawPre : String) : String × String × String :=
  let cleanPre := pathClean (pathJoin2 "/" rawPre)
  let cleanPre := String.mk (cleanPre.data.takeWhile (fun c => c ≠ '?'))
  let s := splitParts cleanPre.data
  let prefixPath := String.mk (s.headD [])
  let prefixParam :=
    if 1 < s.length then String.mk ('/' :: ':' :: joinMarker (s.drop 1)) else ""
  (cleanPre, prefixPath, prefixParam)

/-- `handleWareUri`: `add = "[" + prefix + "]"` followed by `"[" + m + "]"`
for each method, concatenated after the callback's symbolic identity. -/
def handleWareUri (hw : Callback) (methods : List String) (pre : String) :
    String :=
  symbolicId hw ++
    methods.foldl (fun acc m => acc ++ "[" ++ m ++ "]") ("[" ++ pre ++ "]")

/-- A prefix-bound route descriptor (`VirtHandler` in apihandler.go).  The
`sync.Mutex` field carries no data and is omitted; the Go field `prefix` is
named `prefixStr` here. -/
structure VirtHandler where
  id : String
  methods : List String
  prefixStr : String
  prefixPath : String
  prefixParam : String
  description : String
  produces : List String
  params : List Param
deriving DecidableEq

/-- The package-level mutable state touched by `NewVirtHandler`: the
`virtHandlerMap` map (guarded by `virtHandlerLock`) and the unguarded
`handlerMap` from ids to callbacks. -/
structure VirtState where
  virtHandlerMap : List (String × VirtHandler)
  handlerMap : List (String × Callback)
deriving DecidableEq

/-- `GetVirtHandler`: map lookup returning the descriptor and an ok flag,
embedded as an `Option`. -/
def GetVirtHandler (st : VirtState) (id : String) : Option VirtHandler :=
  lookupA st.virtHandlerMap id

/-- The candidate descriptor `NewVirtHandler` builds after decomposing the
prefix (`creatPrefix`) and deriving the id (`handleWareUri`). -/
def mkVirtHandler (handlerfunc : Callback) (rawPre : String)
    (methods : List String) (description : String) (produces : List String)
    (params : List Param) : VirtHandler :=
  { id := handleWareUri handlerfunc methods (creatPrefix rawPre).1,
    methods := methods, prefixStr := (creatPrefix rawPre).1,
    prefixPath := (creatPrefix rawPre).2.1,
    prefixParam := (creatPrefix rawPre).2.2,
    description := description, produces := produces, params := params }

/-- `NewVirtHandler`: decompose the prefix, derive the id, build the
candidate descriptor; if the id is already known return the stored descriptor,
else store the new descriptor (`setVirtHandler`) and its callback
(`setHandlerMap`). -/
def NewVirtHandler (handlerfunc : Callback) (rawPre : String)
    (methods : List String) (description : String) (produces : List String)
    (params : List Param) (st : VirtState) : VirtHandler × VirtState :=
  match lookupA st.virtHandlerMap
      (mkVirtHandler handlerfunc rawPre methods description produces params).id with
  | some v0 => (v0, st)
  | none =>
    (mkVirtHandler handlerfunc rawPre methods description produces params,
     { virtHandlerMap := insertA st.virtHandlerMap
         (mkVirtHandler handlerfunc rawPre methods description produces params).id
         (mkVirtHandler handlerfunc rawPre methods description produces params),
       handlerMap := insertA st.handlerMap
         (mkVirtHandler handlerfunc rawPre methods description produces params).id
         handlerfunc })

end Lessgo

namespace Fasthttp

/-! Embedding of `engine/fasthttp/server.go`.  Wrapper instances handed out by
the five `sync.Pool`s are identified by tokens (`Nat`); a pool is its list of
currently free instances plus a counter for allocating a fresh instance when
the free list is empty (`sync.Pool.New`).  The wrappers' `reset` methods
rebind them to the native request context and do not touch any pool, so they
do not appear in the pool-level state. -/

/-- One `sync.Pool`: `Get` hands out a free instance or a freshly allocated
one, `Put` returns an instance to the free list. -/
def poolGet (pool : List Nat) (fresh : Nat) : Nat × List Nat × Nat :=
  match pool with
  | x :: rest => (x, rest, fresh)
  | [] => (fresh, [], fresh + 1)

/-- `sync.Pool.Put`. -/
def poolPut (x : Nat) (pool : List Nat) : List Nat := x :: pool

/-- The five per-kind wrapper pools of `Server.pool`, plus the allocation
counter shared by the embedding's `New` functions. -/
structure Pools where
  request : List Nat
  requestHeader : List Nat
  url : List Nat
  response : List Nat
  responseHeader : List Nat
  fresh : Nat
deriving DecidableEq

/-- The result of one dispatch cycle: the five wrapper instances acquired for
this request and the pool state after all `Put` calls. -/
structure Dispatch where
  rq : Nat
  rqHdr : Nat
  rqURL : Nat
  rs : Nat
  rsHdr : Nat
  pools : Pools
deriving DecidableEq

/-- `Server.ServeHTTP`: acquire the request, request-header and URL wrappers,
reset them against the native context, acquire the response and
response-header wrappers, reset them, invoke the handler, then return all five
instances to their pools.  The handler's application-level outcome is passed
in as `handlerErr` and — exactly as in the code, where the `Put` calls follow
the handler invocation unconditionally — never consulted. -/
def ServeHTTP (handlerErr : Bool) (p : Pools) : Dispatch :=
  let g1 := poolGet p.request p.fresh
  let g2 := poolGet p.requestHeader g1.2.2
  let g3 := poolGet p.url g2.2.2
  let g4 := poolGet p.response g3.2.2
  let g5 := poolGet p.responseHeader g4.2.2
  let _ := handlerErr
  { rq := g1.1, rqHdr := g2.1, rqURL := g3.1, rs := g4.1, rsHdr := g5.1,
    pools :=
      { request := poolPut g1.1 g1.2.1,
        requestHeader := poolPut g2.1 g2.2.1,
        url := poolPut g3.1 g3.2.1,
        response := poolPut g4.1 g4.2.1,
        responseHeader := poolPut g5.1 g5.2.1,
        fresh := g5.2.2 } }

/-- `engine.Config` as consumed by `Start`: address, TLS certificate/key file
paths, and an optional pre-bound listener (identified by a token). -/
structure Config where
  Address : String
  TLSCertfile : String
  TLSKeyfile : String
  Listener : Option Nat
deriving DecidableEq

/-- The serving call a `Start` invocation resolves to. -/
inductive ServeCall where
  | listenAndServe (addr : String)
  | listenAndServeTLS (addr certfile keyfile : String)
  | serve (ln : Nat)
  | serveTLS (ln : Nat) (certfile keyfile : String)
deriving DecidableEq

/-- `Server.startDefaultListener`: bind the configured address, with TLS
exactly when both file paths are non-empty. -/
def startDefaultListener (c : Config) : ServeCall :=
  if c.TLSCertfile ≠ "" ∧ c.TLSKeyfile ≠ "" then
    .listenAndServeTLS c.Address c.TLSCertfile c.TLSKeyfile
  else .listenAndServe c.Address

/-- `Server.startCustomListener`: serve on the supplied listener, with TLS
exactly when both file paths are non-empty. -/
def startCustomListener (c : Config) (ln : Nat) : ServeCall :=
  if c.TLSCertfile ≠ "" ∧ c.TLSKeyfile ≠ "" then
    .serveTLS ln c.TLSCertfile c.TLSKeyfile
  else .serve ln

/-- `Server.Start`: dispatch on whether a pre-bound listener was supplied. -/
def Start (c : Config) : ServeCall :=
  match c.Listener with
  | none => startDefaultListener c
  | some ln => startCustomListener c ln

/-- Whether a serving call uses TLS. -/
def ServeCall.usesTLS : ServeCall → Bool
  | .listenAndServeTLS _ _ _ => true
  | .serveTLS _ _ _ => true
  | _ => false

/-- The pre-bound listener a serving call attaches to, if any. -/
def ServeCall.listener : ServeCall → Option Nat
  | .serve ln => some ln
  | .serveTLS ln _ _ => some ln
  | _ => none

/-- The address a serving call binds, if it binds one. -/
def ServeCall.boundAddress : ServeCall → Option String
  | .listenAndServe a => some a
  | .listenAndServeTLS a _ _ => some a
  | _ => none

end Fasthttp

namespace Lessgo

/-! A heap-level view of `VirtHandler` slice fields, for the defensive-copy
accessors.  A Go slice value is a reference into backing storage; the heap
holds the backing arrays (indexed by `Nat` references) and a descriptor's
slice-typed fields hold references.  `make` + element-wise copy allocates a
fresh backing array; returning a stored field returns the same reference. -/

/-- Backing storage for the slice fields of registered descriptors: string
arrays (for `methods` and `produces`) and parameter arrays (for `params`). -/
structure Heap where
  strs : List (List String)
  params : List (List Param)
deriving DecidableEq

/-- Read the string array behind a reference. -/
def readStr (h : Heap) (r : Nat) : List String := h.strs.getD r []

/-- Read the parameter array behind a reference. -/
def readParams (h : Heap) (r : Nat) : List Param := h.params.getD r []

/-- Mutate one element of the string array behind a reference (what a caller
does when it writes through a returned slice). -/
def writeStr (h : Heap) (r i : Nat) (x : String) : Heap :=
  { h with strs := h.strs.set r ((h.strs.getD r []).set i x) }

/-- Mutate one element of the parameter array behind a reference. -/
def writeParams (h : Heap) (r i : Nat) (x : Param) : Heap :=
  { h with params := h.params.set r ((h.params.getD r []).set i x) }

/-- The slice-typed fields of a registered `VirtHandler`, as heap
references. -/
structure VirtHandlerRefs where
  methodsRef : Nat
  producesRef : Nat
  paramsRef : Nat
deriving DecidableEq

/-- `(*VirtHandler).Methods`: `make` a fresh slice of the same length, `copy`
the stored methods into it, and return it — a new reference to a new backing
array holding the same elements. -/
def VirtHandlerRefs.Methods (v : VirtHandlerRefs) (h : Heap) : Nat × Heap :=
  (h.strs.length, { h with strs := h.strs ++ [readStr h v.methodsRef] })

/-- `(*VirtHandler).Params`: `make` a fresh slice and copy the stored params
element-wise (the `for key, val` loop), returning the new reference. -/
def VirtHandlerRefs.Params (v : VirtHandlerRefs) (h : Heap) : Nat × Heap :=
  (h.params.length, { h with params := h.params ++ [readParams h v.paramsRef] })

/-- `(*VirtHandler).Produces`: returns the stored `produces` field itself —
the same reference, no copy, heap untouched. -/
def VirtHandlerRefs.Produces (v : VirtHandlerRefs) (h : Heap) : Nat × Heap :=
  (v.producesRef, h)

/-! An interleaving model of concurrent registration.  `(*ApiHandler).init`
holds only the descriptor's own per-instance lock, and each concurrent caller
registers its own copy of the declared descriptor, so the registry-level
steps of different callers interleave freely.  Each caller performs two
atomic registry operations: the `getApiHandler` read (under the read lock)
and, if that read returned nil, the `setApiHandler` write (under the write
lock).  A schedule lists which caller takes its next step. -/

/-- The program counter of one registering caller. -/
inductive CallerPC where
  | start
  | checked (found : Option ApiHandler)
  | done (ret : Option ApiHandler)
deriving DecidableEq

/-- Global state of the interleaving model: the registry plus each caller's
program counter.  All callers register the same declared descriptor
`adecl`. -/
structure ConcState where
  reg : RegState
  pcs : List CallerPC
deriving DecidableEq

/-- One atomic step of caller `k`: perform its ready registry operation (the
local derivation of the descriptor is deterministic and shared by all
callers of the same declaration). -/
def concStep (adecl : ApiHandler) (st : ConcState) (k : Nat) : ConcState :=
  match st.pcs.get? k with
  | none => st
  | some .start =>
    { st with pcs := st.pcs.set k (.checked (getApiHandler st.reg adecl.initFields.id)) }
  | some (.checked none) =>
    { reg := setApiHandler st.reg adecl.initFields,
      pcs := st.pcs.set k (.done (some adecl.initFields)) }
  | some (.checked (some h)) => { st with pcs := st.pcs.set k (.done (some h)) }
  | some (.done _) => st

/-- Run a schedule of caller steps. -/
def runSched (adecl : ApiHandler) : List Nat → ConcState → ConcState
  | [], st => st
  | k :: ks, st => runSched adecl ks (concStep adecl st k)

/-- Concatenation of a list of strings, used to state the bracket-formula and
suffix-concatenation properties. -/
def concatAll (l : List String) : String := l.foldr (fun a b => a ++ b) ""

/-- Specification-side view of the dedup/resolution loop of `initTypes` on the
portion of the list not yet visited: `prev` is the previously surviving entry;
an entry equal to `prev` is dropped, any other entry survives, becomes the new
`prev`, and contributes its resolved method.  `typesLoop` is proved equal to
this on well-formed inputs. -/
def procRest (prev : Option String) : List String → List String × List String
  | [] => ([], [])
  | x :: r =>
    if prev = some x then procRest prev r
    else
      (x :: (procRest (some x) r).1,
       GetMethodFromType x :: (procRest (some x) r).2)

end Lessgo


/-! ## Supporting lemmas -/

open Lessgo Fasthttp

theorem strData_inj {a b : String} (h : a.data = b.data) : a = b := by
  cases a; cases b; exact congrArg String.mk h

theorem strData_append (a b : String) : (a ++ b).data = a.data ++ b.data := rfl

theorem concatAll_nil : concatAll [] = "" := rfl

theorem concatAll_cons (x : String) (l : List String) :
    concatAll (x :: l) = x ++ concatAll l := rfl

theorem foldl_bracket_eq (l : List String) :
    ∀ init : String,
      l.foldl (fun acc m => acc ++ "[" ++ m ++ "]") init =
        init ++ concatAll (l.map fun m => "[" ++ m ++ "]") := by
  induction l with
  | nil => intro init; simp [concatAll]
  | cons x xs ih =>
    intro init
    rw [List.foldl_cons, ih, List.map_cons, concatAll_cons]
    simp [String.append_assoc]

theorem paramsLoop_suffix (ps : List Param) :
    (paramsLoop ps).2 =
      concatAll ((ps.filter fun p => p.In == "path").map fun p =>
        "/:" ++ p.Name) := by
  induction ps with
  | nil => simp [paramsLoop, concatAll]
  | cons p rest ih =>
    by_cases h : p.In = "path" <;>
      simp [paramsLoop, h, ih, concatAll_cons, String.append_assoc]

theorem paramsLoop_params (ps : List Param) :
    (paramsLoop ps).1 =
      ps.map fun p => if p.In = "path" then { p with Required := true } else p := by
  induction ps with
  | nil => simp [paramsLoop]
  | cons p rest ih =>
    by_cases h : p.In = "path" <;> simp [paramsLoop, h, ih]

/-! ## Claims -/

/-- Claim C2: identity derivation is deterministic and follows two distinct
formulas — the operation-bound id is the callback's symbolic identity
(fully-qualified function name, or the runtime type name for a non-function)
followed by `[suffix][description][type]...` over the final types, and the
prefix-bound id is the same symbolic identity followed by
`[prefix][method]...`, which mentions neither the description nor any
parameter. -/
theorem claim_C2_identity_formulas :
    (∀ a : ApiHandler,
      a.initId.id =
        symbolicId a.Handler ++ ("[" ++ a.suffix ++ "][" ++ a.Desc ++ "]") ++
          concatAll (a.Types.map fun t => "[" ++ t ++ "]")) ∧
    (∀ (hw : Callback) (methods : List String) (pre : String),
      handleWareUri hw methods pre =
        symbolicId hw ++ ("[" ++ pre ++ "]") ++
          concatAll (methods.map fun m => "[" ++ m ++ "]")) ∧
    (∀ n, symbolicId (.func n) = n) ∧
    (∀ t, symbolicId (.nonFunc t) = t) := by
  refine ⟨fun a => ?_, fun hw methods pre => ?_, fun n => rfl, fun t => rfl⟩
  · show symbolicId a.Handler ++
        a.Types.foldl (fun acc m => acc ++ "[" ++ m ++ "]")
          ("[" ++ a.suffix ++ "][" ++ a.Desc ++ "]") = _
    rw [foldl_bracket_eq]
    apply strData_inj; simp [strData_append]
  · show symbolicId hw ++
        methods.foldl (fun acc m => acc ++ "[" ++ m ++ "]") ("[" ++ pre ++ "]") = _
    rw [foldl_bracket_eq]
    apply strData_inj; simp [strData_append]

/-- Claim C5: the derived suffix concatenates `"/:" + name` for exactly the
path-located parameters in declared order; path-located parameters get
`Required` forced to true; all other parameters contribute nothing to the
suffix and are left unchanged. -/
theorem claim_C5_path_suffix (a : ApiHandler) :
    a.initParamsAndSuffix.suffix =
      concatAll ((a.Params.filter fun p => p.In == "path").map fun p =>
        "/:" ++ p.Name) ∧
    a.initParamsAndSuffix.Params =
      a.Params.map fun p =>
        if p.In = "path" then { p with Required := true } else p :=
  ⟨paramsLoop_suffix a.Params, paramsLoop_params a.Params⟩

/-- Claim C7: every dispatch cycle returns all five wrapper instances it
acquired to their respective pools once the handler returns — each final pool
is exactly the acquired instance pushed back onto the rest of that pool — and
the pool bookkeeping is independent of the handler's application-level
outcome. -/
theorem claim_C7_pool_release (e1 e2 : Bool) (p : Pools) :
    (ServeHTTP e1 p).pools.request = (ServeHTTP e1 p).rq :: p.request.tail ∧
    (ServeHTTP e1 p).pools.requestHeader =
      (ServeHTTP e1 p).rqHdr :: p.requestHeader.tail ∧
    (ServeHTTP e1 p).pools.url = (ServeHTTP e1 p).rqURL :: p.url.tail ∧
    (ServeHTTP e1 p).pools.response = (ServeHTTP e1 p).rs :: p.response.tail ∧
    (ServeHTTP e1 p).pools.responseHeader =
      (ServeHTTP e1 p).rsHdr :: p.responseHeader.tail ∧
    ServeHTTP e1 p = ServeHTTP e2 p := by
  obtain ⟨r1, r2, r3, r4, r5, fr⟩ := p
  cases r1 <;> cases r2 <;> cases r3 <;> cases r4 <;> cases r5 <;>
    simp [ServeHTTP, poolGet, poolPut]

/-- Claim C8: `Start` serves on the supplied pre-bound listener when one is
present and otherwise binds the configured address, and in both cases it
serves TLS exactly when both the certificate path and the key path are
non-empty. -/
theorem claim_C8_start_selection (c : Config) :
    (Start c).usesTLS =
      (decide (c.TLSCertfile ≠ "") && decide (c.TLSKeyfile ≠ "")) ∧
    (Start c).listener = c.Listener ∧
    (Start c).boundAddress =
      (match c.Listener with | none => some c.Address | some _ => none) := by
  obtain ⟨addr, cert, key, ln⟩ := c
  cases ln <;> by_cases h1 : cert = "" <;> by_cases h2 : key = "" <;>
    simp [Start, startDefaultListener, startCustomListener, ServeCall.usesTLS,
      ServeCall.listener, ServeCall.boundAddress, h1, h2]

theorem lookupA_insertA_self {α : Type} (m : List (String × α)) (k : String)
    (v : α) : lookupA (insertA m k v) k = some v := by
  induction m with
  | nil => simp [insertA, lookupA]
  | cons e rest ih =>
    obtain ⟨k', v'⟩ := e
    by_cases h : k' = k <;> simp [insertA, lookupA, h, ih]

theorem insertA_length_le {α : Type} (m : List (String × α)) (k : String)
    (v : α) : (insertA m k v).length ≤ m.length + 1 := by
  induction m with
  | nil => simp [insertA]
  | cons e rest ih =>
    obtain ⟨k', v'⟩ := e
    by_cases h : k' = k
    · simp [insertA, h]
    · simp [insertA, h]
      omega

/-- Claim C10: `Methods()` and `Params()` return slices element-wise equal to
the stored fields but backed by freshly allocated storage, so writing through
a returned slice leaves the descriptor's stored fields unchanged; `Produces()`
returns the internal slice itself (the same reference) and leaves the heap
untouched. -/
theorem claim_C10_defensive_copies (v : VirtHandlerRefs) (h : Heap)
    (hm : v.methodsRef < h.strs.length) (hp : v.paramsRef < h.params.length) :
    (v.Methods h).1 ≠ v.methodsRef ∧
    readStr (v.Methods h).2 (v.Methods h).1 = readStr h v.methodsRef ∧
    (∀ i x, readStr (writeStr (v.Methods h).2 (v.Methods h).1 i x) v.methodsRef =
      readStr h v.methodsRef) ∧
    (v.Params h).1 ≠ v.paramsRef ∧
    readParams (v.Params h).2 (v.Params h).1 = readParams h v.paramsRef ∧
    (∀ i x,
      readParams (writeParams (v.Params h).2 (v.Params h).1 i x) v.paramsRef =
        readParams h v.paramsRef) ∧
    (v.Produces h).1 = v.producesRef ∧ (v.Produces h).2 = h := by
  refine ⟨by simp [VirtHandlerRefs.Methods]; omega, ?_, ?_, by
    simp [VirtHandlerRefs.Params]; omega, ?_, ?_, rfl, rfl⟩
  · simp [VirtHandlerRefs.Methods, readStr, List.getD]
  · intro i x
    have hne : h.strs.length ≠ v.methodsRef := by omega
    simp [VirtHandlerRefs.Methods, writeStr, readStr, List.getD,
      List.getElem?_set_ne hne, List.getElem?_append_left hm]
  · simp [VirtHandlerRefs.Params, readParams, List.getD]
  · intro i x
    have hne : h.params.length ≠ v.paramsRef := by omega
    simp [VirtHandlerRefs.Params, writeParams, readParams, List.getD,
      List.getElem?_set_ne hne, List.getElem?_append_left hp]

/-- Witness for claim C10 at a one-slot heap. -/
theorem claim_C10_defensive_copies_witness :
    (VirtHandlerRefs.Methods ⟨0, 0, 0⟩ ⟨[["GET"]], [[]]⟩).1 ≠ 0 ∧
    readStr (VirtHandlerRefs.Methods ⟨0, 0, 0⟩ ⟨[["GET"]], [[]]⟩).2
        (VirtHandlerRefs.Methods ⟨0, 0, 0⟩ ⟨[["GET"]], [[]]⟩).1 =
      readStr ⟨[["GET"]], [[]]⟩ 0 := by
  have h := claim_C10_defensive_copies ⟨0, 0, 0⟩ ⟨[["GET"]], [[]]⟩
    (by decide) (by decide)
  exact ⟨h.1, h.2.1⟩

/-- Claim C1: registration is an idempotent get-or-create.  For `Reg` on a
declared (not yet inited) descriptor: the returned descriptor is exactly the
one stored under the derived id, the map gains at most one entry, and
repeating the call returns the same descriptor and leaves the state
unchanged.  For `NewVirtHandler`: the returned descriptor is the one stored
under the derived id, the map gains at most one entry, and repeating the call
with identical arguments returns the stored descriptor and leaves the state
unchanged. -/
theorem claim_C1_idempotent_registration (a : ApiHandler) (st : RegState)
    (ha : a.inited = false) (hf : Callback) (raw : String) (ms : List String)
    (desc : String) (prod : List String) (ps : List Param) (vst : VirtState) :
    (getApiHandler (a.Reg st).2 a.initFields.id = (a.Reg st).1 ∧
     (a.Reg st).2.apiHandlerMap.length ≤ st.apiHandlerMap.length + 1 ∧
     ApiHandler.Reg a (a.Reg st).2 = ((a.Reg st).1, (a.Reg st).2)) ∧
    (lookupA (NewVirtHandler hf raw ms desc prod ps vst).2.virtHandlerMap
        (mkVirtHandler hf raw ms desc prod ps).id =
      some (NewVirtHandler hf raw ms desc prod ps vst).1 ∧
     (NewVirtHandler hf raw ms desc prod ps vst).2.virtHandlerMap.length ≤
       vst.virtHandlerMap.length + 1 ∧
     NewVirtHandler hf raw ms desc prod ps
         (NewVirtHandler hf raw ms desc prod ps vst).2 =
       ((NewVirtHandler hf raw ms desc prod ps vst).1,
        (NewVirtHandler hf raw ms desc prod ps vst).2)) := by
  constructor
  · cases hl : getApiHandler st a.initFields.id with
    | some h0 =>
      have hreg : a.Reg st = (some h0, st) := by
        rw [ApiHandler.Reg, ApiHandler.init, if_neg (by simp [ha]), hl]
      rw [hreg]
      exact ⟨hl, Nat.le_succ _, hreg⟩
    | none =>
      have hreg : a.Reg st = (some a.initFields, setApiHandler st a.initFields) := by
        rw [ApiHandler.Reg, ApiHandler.init, if_neg (by simp [ha]), hl]
      have hstored : getApiHandler (setApiHandler st a.initFields)
          a.initFields.id = some a.initFields := by
        simp [getApiHandler, setApiHandler, lookupA_insertA_self]
      have hreg2 : ApiHandler.Reg a (setApiHandler st a.initFields) =
          (some a.initFields, setApiHandler st a.initFields) := by
        rw [ApiHandler.Reg, ApiHandler.init, if_neg (by simp [ha]), hstored]
      rw [hreg]
      exact ⟨hstored,
        insertA_length_le st.apiHandlerMap a.initFields.id a.initFields, hreg2⟩
  · cases hl : lookupA vst.virtHandlerMap (mkVirtHandler hf raw ms desc prod ps).id with
    | some v0 =>
      have hnvh : NewVirtHandler hf raw ms desc prod ps vst = (v0, vst) := by
        rw [NewVirtHandler, hl]
      rw [hnvh]
      exact ⟨hl, Nat.le_succ _, hnvh⟩
    | none =>
      have hnvh : NewVirtHandler hf raw ms desc prod ps vst =
          (mkVirtHandler hf raw ms desc prod ps,
           { virtHandlerMap := insertA vst.virtHandlerMap
               (mkVirtHandler hf raw ms desc prod ps).id
               (mkVirtHandler hf raw ms desc prod ps),
             handlerMap := insertA vst.handlerMap
               (mkVirtHandler hf raw ms desc prod ps).id hf }) := by
        rw [NewVirtHandler, hl]
      have hstored : lookupA (insertA vst.virtHandlerMap
            (mkVirtHandler hf raw ms desc prod ps).id
            (mkVirtHandler hf raw ms desc prod ps))
          (mkVirtHandler hf raw ms desc prod ps).id =
          some (mkVirtHandler hf raw ms desc prod ps) :=
        lookupA_insertA_self _ _ _
      have hnvh2 : NewVirtHandler hf raw ms desc prod ps
          { virtHandlerMap := insertA vst.virtHandlerMap
              (mkVirtHandler hf raw ms desc prod ps).id
              (mkVirtHandler hf raw ms desc prod ps),
            handlerMap := insertA vst.handlerMap
              (mkVirtHandler hf raw ms desc prod ps).id hf } =
          (mkVirtHandler hf raw ms desc prod ps,
           { virtHandlerMap := insertA vst.virtHandlerMap
               (mkVirtHandler hf raw ms desc prod ps).id
               (mkVirtHandler hf raw ms desc prod ps),
             handlerMap := insertA vst.handlerMap
               (mkVirtHandler hf raw ms desc prod ps).id hf }) := by
        rw [NewVirtHandler, hstored]
      rw [hnvh]
      exact ⟨hstored, insertA_length_le _ _ _, hnvh2⟩

/-- Witness for claim C1 at an empty registry and a concrete declaration. -/
theorem claim_C1_idempotent_registration_witness :
    let a : ApiHandler :=
      { Desc := "d", Types := ["GET"], methods := [], Params := [],
        Handler := .func "pkg.F", id := "", suffix := "", inited := false }
    let st : RegState := ⟨[], []⟩
    getApiHandler (a.Reg st).2 a.initFields.id = (a.Reg st).1 ∧
    ApiHandler.Reg a (a.Reg st).2 = ((a.Reg st).1, (a.Reg st).2) := by
  intro a st
  have h := claim_C1_idempotent_registration a st rfl (.func "pkg.F") "" []
    "" [] [] ⟨[], []⟩
  exact ⟨h.1.1, h.1.2.2⟩

theorem mem_insertHandlerList (vh x : ApiHandler) (l : List ApiHandler) :
    x ∈ insertHandlerList vh l ↔ x = vh ∨ x ∈ l := by
  induction l with
  | nil => simp [insertHandlerList]
  | cons vh2 rest ih =>
    by_cases h : strLt vh.id vh2.id
    · simp [insertHandlerList, h]
    · simp [insertHandlerList, h, ih]
      tauto

theorem perm_insertHandlerList (vh : ApiHandler) (l : List ApiHandler) :
    List.Perm (insertHandlerList vh l) (vh :: l) := by
  induction l with
  | nil => simp [insertHandlerList]
  | cons vh2 rest ih =>
    by_cases h : strLt vh.id vh2.id
    · rw [insertHandlerList, if_pos h]
    · rw [insertHandlerList, if_neg h]
      exact (ih.cons vh2).trans (List.Perm.swap vh vh2 rest)

theorem pairwise_insertHandlerList (vh : ApiHandler) (l : List ApiHandler)
    (hs : l.Pairwise fun x y => strLe x.id y.id) :
    (insertHandlerList vh l).Pairwise fun x y => strLe x.id y.id := by
  induction l with
  | nil => simp [insertHandlerList]
  | cons vh2 rest ih =>
    obtain ⟨h2all, hrest⟩ := List.pairwise_cons.mp hs
    by_cases h : strLt vh.id vh2.id
    · rw [insertHandlerList, if_pos h]
      refine List.pairwise_cons.mpr ⟨?_, hs⟩
      intro y hy
      rcases List.mem_cons.mp hy with hy | hy
      · rw [hy]
        exact le_of_lt h
      · exact le_trans (le_of_lt h) (h2all y hy)
    · rw [insertHandlerList, if_neg h]
      refine List.pairwise_cons.mpr ⟨?_, ih hrest⟩
      intro y hy
      rcases (mem_insertHandlerList vh y rest).mp hy with hy | hy
      · rw [hy]
        exact le_of_not_lt h
      · exact h2all y hy

/-- Claim C3: ordered insertion keeps the global operation-descriptor list in
ascending identity order — from any state whose list is sorted by identity,
`setApiHandler` yields a list that is still sorted by identity, and whose
members are exactly the new descriptor together with the previous ones. -/
theorem claim_C3_sorted_insertion (vh : ApiHandler) (st : RegState)
    (hs : st.apiHandlers.Pairwise fun x y => strLe x.id y.id) :
    ((setApiHandler st vh).apiHandlers.Pairwise fun x y => strLe x.id y.id) ∧
    List.Perm (setApiHandler st vh).apiHandlers (vh :: st.apiHandlers) :=
  ⟨pairwise_insertHandlerList vh st.apiHandlers hs,
   perm_insertHandlerList vh st.apiHandlers⟩

/-- Witness for claim C3 at a concrete singleton state. -/
theorem claim_C3_sorted_insertion_witness :
    ((setApiHandler
        ⟨[], [{ Desc := "", Types := [], methods := [], Params := [],
                Handler := .func "a", id := "a", suffix := "",
                inited := true }]⟩
        { Desc := "", Types := [], methods := [], Params := [],
          Handler := .func "b", id := "b", suffix := "",
          inited := true }).apiHandlers.Pairwise fun x y =>
      strLe x.id y.id) ∧
    List.Perm
      (setApiHandler
        ⟨[], [{ Desc := "", Types := [], methods := [], Params := [],
                Handler := .func "a", id := "a", suffix := "",
                inited := true }]⟩
        { Desc := "", Types := [], methods := [], Params := [],
          Handler := .func "b", id := "b", suffix := "",
          inited := true }).apiHandlers
      ({ Desc := "", Types := [], methods := [], Params := [],
         Handler := .func "b", id := "b", suffix := "",
         inited := true } ::
        [{ Desc := "", Types := [], methods := [], Params := [],
           Handler := .func "a", id := "a", suffix := "",
           inited := true }]) := by
  exact claim_C3_sorted_insertion _ _ (by simp)

/-- Claim C9 (refuted by this run): registration is check-then-insert under
two separate lock acquisitions, so two concurrent callers of the same
declaration can both observe the id as absent (`getApiHandler`) before either
stores it (`setApiHandler`).  In the schedule check0, check1, insert0,
insert1 the ordered descriptor list ends holding two entries with the same
id — a duplicate — while the map holds one (the second write overwrote the
first, so the first caller's returned descriptor is not the stored
instance). -/
theorem claim_C9_race_duplicate_insertion :
    let adecl : ApiHandler :=
      { Desc := "d", Types := ["GET"], methods := [], Params := [],
        Handler := .func "pkg.F", id := "", suffix := "", inited := false }
    let fin := runSched adecl [0, 1, 0, 1] ⟨⟨[], []⟩, [.start, .start]⟩
    fin.reg.apiHandlers.map (fun h => h.id) =
      ["pkg.F[][d][GET]", "pkg.F[][d][GET]"] ∧
    ¬ (fin.reg.apiHandlers.map fun h => h.id).Nodup ∧
    fin.reg.apiHandlerMap.length = 1 ∧
    fin.pcs = [.done (some adecl.initFields), .done (some adecl.initFields)] := by
  decide

theorem splitParts_ne_nil : ∀ l : List Char, splitParts l ≠ []
  | [] => by simp [splitParts]
  | [c] => by simp [splitParts]
  | c1 :: c2 :: rest => by
    by_cases h : c1 = '/' ∧ c2 = ':'
    · simp [splitParts, h]
    · cases hs : splitParts (c2 :: rest) with
      | nil => exact absurd hs (splitParts_ne_nil (c2 :: rest))
      | cons p ps => simp [splitParts, h, hs]

theorem joinMarker_splitParts : ∀ l : List Char, joinMarker (splitParts l) = l
  | [] => by simp [splitParts, joinMarker]
  | [c] => by simp [splitParts, joinMarker]
  | c1 :: c2 :: rest => by
    by_cases h : c1 = '/' ∧ c2 = ':'
    · obtain ⟨h1, h2⟩ := h
      subst h1
      subst h2
      cases hs : splitParts rest with
      | nil => exact absurd hs (splitParts_ne_nil rest)
      | cons p ps =>
        have ih := joinMarker_splitParts rest
        rw [hs] at ih
        simp [splitParts, hs, joinMarker, ih]
    · cases hs : splitParts (c2 :: rest) with
      | nil => exact absurd hs (splitParts_ne_nil (c2 :: rest))
      | cons p ps =>
        have ih := joinMarker_splitParts (c2 :: rest)
        rw [hs] at ih
        cases ps with
        | nil =>
          simp only [splitParts, if_neg h, hs, joinMarker] at *
          rw [ih]
        | cons q qs =>
          simp only [splitParts, if_neg h, hs, joinMarker] at *
          rw [List.cons_append, ih]

theorem splitParts_head_head :
    ∀ l : List Char,
      (splitParts l).headD [] = [] ∨
        ((splitParts l).headD []).head? = l.head?
  | [] => Or.inl rfl
  | [_] => Or.inr rfl
  | c1 :: c2 :: rest => by
    by_cases h : c1 = '/' ∧ c2 = ':'
    · left
      simp [splitParts, h]
    · right
      cases hs : splitParts (c2 :: rest) with
      | nil => exact absurd hs (splitParts_ne_nil (c2 :: rest))
      | cons p ps => simp [splitParts, h, hs]

theorem hasMarker_head_splitParts :
    ∀ l : List Char, hasMarker ((splitParts l).headD []) = false
  | [] => by simp [splitParts, hasMarker]
  | [c] => by simp [splitParts, hasMarker]
  | c1 :: c2 :: rest => by
    by_cases h : c1 = '/' ∧ c2 = ':'
    · simp [splitParts, h, hasMarker]
    · cases hs : splitParts (c2 :: rest) with
      | nil => exact absurd hs (splitParts_ne_nil (c2 :: rest))
      | cons p ps =>
        have ih := hasMarker_head_splitParts (c2 :: rest)
        rw [hs] at ih
        simp only [List.headD_cons] at ih
        rcases splitParts_head_head (c2 :: rest) with hp | hp
        · rw [hs] at hp
          simp only [List.headD_cons] at hp
          subst hp
          simp [splitParts, h, hs, hasMarker]
        · rw [hs] at hp
          simp only [List.headD_cons, List.head?_cons] at hp
          simp only [splitParts, if_neg h, hs, List.headD_cons, hasMarker, hp,
            ih, Bool.or_false]
          by_cases hc1 : c1 = '/'
          · have hc2 : ¬ c2 = ':' := fun hc2 => h ⟨hc1, hc2⟩
            simp [hc1, hc2]
          · simp [hc1]

theorem splitParts_of_no_marker :
    ∀ l : List Char, hasMarker l = false → splitParts l = [l]
  | [] => fun _ => rfl
  | [_] => fun _ => rfl
  | c1 :: c2 :: rest => fun hm => by
    rw [hasMarker] at hm
    have h2 : hasMarker (c2 :: rest) = false :=
      (Bool.or_eq_false_iff.mp hm).2
    have h1 : (c1 == '/' && ((c2 :: rest).head? == some ':')) = false :=
      (Bool.or_eq_false_iff.mp hm).1
    have hcond : ¬ (c1 = '/' ∧ c2 = ':') := by
      intro hc
      rw [hc.1, hc.2] at h1
      simp at h1
    have ih := splitParts_of_no_marker (c2 :: rest) h2
    simp [splitParts, hcond, ih]

theorem creat_split_spec (d : List Char) :
    String.mk ((splitParts d).headD []) ++
      (if 1 < (splitParts d).length then
        String.mk ('/' :: ':' :: joinMarker ((splitParts d).drop 1)) else "") =
      String.mk d ∧
    hasMarker ((splitParts d).headD []) = false ∧
    ((if 1 < (splitParts d).length then
        String.mk ('/' :: ':' :: joinMarker ((splitParts d).drop 1))
      else "") = "" ∨
      (if 1 < (splitParts d).length then
        String.mk ('/' :: ':' :: joinMarker ((splitParts d).drop 1))
      else "").data.take 2 = ['/', ':']) ∧
    (hasMarker d = false →
      String.mk ((splitParts d).headD []) = String.mk d ∧
      (if 1 < (splitParts d).length then
        String.mk ('/' :: ':' :: joinMarker ((splitParts d).drop 1))
      else "") = "") := by
  have hjoin := joinMarker_splitParts d
  have hhead := hasMarker_head_splitParts d
  cases hs : splitParts d with
  | nil => exact absurd hs (splitParts_ne_nil d)
  | cons p ps =>
    rw [hs] at hjoin hhead
    cases ps with
    | nil =>
      simp only [joinMarker] at hjoin
      refine ⟨?_, by simpa using hhead, Or.inl (by simp), fun _ => ⟨?_, by simp⟩⟩
      · apply strData_inj
        simp [strData_append, hjoin]
      · apply strData_inj
        simp [hjoin]
    | cons q qs =>
      simp only [joinMarker] at hjoin
      refine ⟨?_, by simpa using hhead, Or.inr (by simp), fun hnm => ?_⟩
      · apply strData_inj
        simp [strData_append, hjoin]
      · have hsingle := splitParts_of_no_marker d hnm
        rw [hs] at hsingle
        simp at hsingle

/-- Claim C6: `creatPrefix` anchors the raw prefix under the root, cleans it,
discards everything from the first `?` on, and splits the cleaned prefix at
the first `/:` marker: `prefixPath` and `prefixParam` concatenate back to the
cleaned prefix, `prefixPath` contains no marker, `prefixParam` is empty or
starts with the marker, and when the cleaned prefix has no marker the whole
of it is `prefixPath` and `prefixParam` is empty; concretely,
`"/users/:id/posts"` yields `("/users/:id/posts", "/users", "/:id/posts")`
and `"users"` yields `("/users", "/users", "")`. -/
theorem claim_C6_prefix_decomposition :
    (∀ raw : String,
      (creatPrefix raw).2.1 ++ (creatPrefix raw).2.2 = (creatPrefix raw).1 ∧
      hasMarker (creatPrefix raw).2.1.data = false ∧
      ((creatPrefix raw).2.2 = "" ∨
        (creatPrefix raw).2.2.data.take 2 = ['/', ':']) ∧
      (hasMarker (creatPrefix raw).1.data = false →
        (creatPrefix raw).2.1 = (creatPrefix raw).1 ∧
        (creatPrefix raw).2.2 = "")) ∧
    creatPrefix "/users/:id/posts" =
      ("/users/:id/posts", "/users", "/:id/posts") ∧
    creatPrefix "users" = ("/users", "/users", "") := by
  refine ⟨fun raw => ?_, by decide, by decide⟩
  exact creat_split_spec
    ((pathClean (pathJoin2 "/" raw)).data.takeWhile fun c => c ≠ '?')

/-- Witness for claim C6: the no-marker branch applied at the raw prefix
`"users"`. -/
theorem claim_C6_prefix_decomposition_witness :
    (creatPrefix "users").2.1 = (creatPrefix "users").1 ∧
    (creatPrefix "users").2.2 = "" := by
  exact (claim_C6_prefix_decomposition.1 "users").2.2.2 (by decide)

theorem getD_append_length {α : Type} (l1 : List α) (x : α) (l2 : List α)
    (d : α) : (l1 ++ x :: l2).getD l1.length d = x := by
  rw [List.getD, List.get?_eq_getElem?,
    List.getElem?_append_right (Nat.le_refl l1.length)]
  simp

theorem typesLoop_guard_iff (done : List String) (x : String)
    (r : List String) :
    (0 < done.length ∧
      (done ++ x :: r).getD (done.length - 1) "" =
        (done ++ x :: r).getD done.length "") ↔
      done.getLast? = some x := by
  rw [getD_append_length]
  cases done with
  | nil => simp
  | cons d ds =>
    have hlt : (d :: ds).length - 1 < (d :: ds).length := by simp
    rw [List.getD, List.get?_eq_getElem?, List.getElem?_append_left hlt,
      ← List.getLast?_eq_getElem?]
    cases hl : (d :: ds).getLast? with
    | none => simp at hl
    | some y => simp

theorem typesLoop_spec :
    ∀ (rest done methods : List String),
      typesLoop rest.length (done ++ rest) methods done.length =
        (done ++ (procRest done.getLast? rest).1,
         methods ++ (procRest done.getLast? rest).2)
  | [], done, methods => by simp [typesLoop, procRest]
  | x :: r, done, methods => by
    simp only [List.length_cons, typesLoop]
    by_cases hg : done.getLast? = some x
    · rw [if_pos ((typesLoop_guard_iff done x r).mpr hg)]
      have htake : (done ++ x :: r).take done.length = done :=
        List.take_left done (x :: r)
      have hdrop : (done ++ x :: r).drop (done.length + 1) = r := by
        have he : done ++ x :: r = (done ++ [x]) ++ r := by simp
        have hlen : done.length + 1 = (done ++ [x]).length := by simp
        rw [he, hlen, List.drop_left]
      rw [htake, hdrop, typesLoop_spec r done methods]
      simp only [procRest, if_pos hg]
    · rw [if_neg (fun hc => hg ((typesLoop_guard_iff done x r).mp hc))]
      rw [getD_append_length]
      have he : done ++ x :: r = (done ++ [x]) ++ r := by simp
      have hlen2 : done.length + 1 = (done ++ [x]).length := by simp
      rw [he, hlen2, typesLoop_spec r (done ++ [x])
        (methods ++ [GetMethodFromType x])]
      have hlast : (done ++ [x]).getLast? = some x := by simp
      rw [hlast]
      simp only [procRest, if_neg hg]
      simp [List.append_assoc]

theorem procRest_snd_map :
    ∀ (prev : Option String) (l : List String),
      (procRest prev l).2 = (procRest prev l).1.map GetMethodFromType
  | _, [] => by simp [procRest]
  | prev, x :: r => by
    by_cases h : prev = some x
    · simp only [procRest, if_pos h]
      exact procRest_snd_map prev r
    · simp only [procRest, if_neg h, List.map_cons]
      rw [procRest_snd_map (some x) r]

theorem procRest_fst_sublist :
    ∀ (prev : Option String) (l : List String), (procRest prev l).1.Sublist l
  | _, [] => by simp [procRest]
  | prev, x :: r => by
    by_cases h : prev = some x
    · simp only [procRest, if_pos h]
      exact (procRest_fst_sublist prev r).cons x
    · simp only [procRest, if_neg h]
      exact (procRest_fst_sublist (some x) r).cons₂ x

theorem procRest_gt :
    ∀ (p : String) (l : List String), l.Pairwise strLe →
      (∀ y ∈ l, strLe p y) →
      ∀ q ∈ (procRest (some p) l).1, strLt p q
  | _, [], _, _ => by simp [procRest]
  | p, x :: r, hp, hb => by
    obtain ⟨hx, hr⟩ := List.pairwise_cons.mp hp
    by_cases h : (some p : Option String) = some x
    · simp only [procRest, if_pos h]
      exact procRest_gt p r hr fun y hy => hb y (List.mem_cons_of_mem _ hy)
    · simp only [procRest, if_neg h]
      intro q hq
      rcases List.mem_cons.mp hq with rfl | hq
      · have hle : strLe p q := hb q (List.mem_cons_self _ _)
        have hne : p ≠ q := fun he => h (by rw [he])
        exact lt_of_le_of_ne hle fun hd => hne (strData_inj hd)
      · exact lt_of_le_of_lt (hb x (List.mem_cons_self _ _))
          (procRest_gt x r hr hx q hq)

theorem procRest_pairwise_lt :
    ∀ (prev : Option String) (l : List String), l.Pairwise strLe →
      (∀ p, prev = some p → ∀ y ∈ l, strLe p y) →
      (procRest prev l).1.Pairwise strLt
  | _, [], _, _ => by simp [procRest]
  | prev, x :: r, hp, hb => by
    obtain ⟨hx, hr⟩ := List.pairwise_cons.mp hp
    by_cases h : prev = some x
    · simp only [procRest, if_pos h]
      exact procRest_pairwise_lt prev r hr fun p hpv y hy =>
        hb p hpv y (List.mem_cons_of_mem _ hy)
    · simp only [procRest, if_neg h]
      refine List.pairwise_cons.mpr ⟨procRest_gt x r hr hx, ?_⟩
      exact procRest_pairwise_lt (some x) r hr fun p hpv y hy =>
        (Option.some.inj hpv) ▸ hx y hy

theorem procRest_mem :
    ∀ (prev : Option String) (l : List String) (a : String), a ∈ l →
      a ∈ (procRest prev l).1 ∨ prev = some a
  | _, [], a, ha => absurd ha (List.not_mem_nil a)
  | prev, x :: r, a, ha => by
    by_cases h : prev = some x
    · rcases List.mem_cons.mp ha with rfl | ha
      · right
        exact h
      · simp only [procRest, if_pos h]
        exact procRest_mem prev r a ha
    · simp only [procRest, if_neg h]
      rcases List.mem_cons.mp ha with rfl | ha
      · left
        exact List.mem_cons_self _ _
      · rcases procRest_mem (some x) r a ha with hmem | hmem
        · left
          exact List.mem_cons_of_mem _ hmem
        · left
          rw [(Option.some.inj hmem).symm]
          exact List.mem_cons_self _ _

/-- Claim C4 (amended): `initTypes` replaces an empty declared `Types` by the
full standard method set but — because the resolution loop is bounded by the
original, pre-default count of zero — resolves no methods for it; for a
non-empty declaration on a fresh descriptor the final `Types` is the sorted
list with runs of equal entries collapsed to their first element (hence
strictly ascending, with the same members), and `methods` resolves exactly
those surviving entries in order.  Case variants such as `"GET"`/`"get"` are
distinct entries: they all survive and may resolve to duplicate methods. -/
theorem claim_C4_method_normalization_amended (a : ApiHandler)
    (hm : a.methods = []) :
    (a.Types = [] →
      a.initTypes.Types =
        [CONNECT, DELETE, GET, HEAD, OPTIONS, PATCH, POST, PUT, TRACE] ∧
      a.initTypes.methods = []) ∧
    (a.Types ≠ [] →
      a.initTypes.Types =
        (procRest none (List.insertionSort strLe a.Types)).1 ∧
      a.initTypes.methods = a.initTypes.Types.map GetMethodFromType ∧
      a.initTypes.Types.Pairwise strLt ∧
      (∀ x, x ∈ a.Types ↔ x ∈ a.initTypes.Types)) := by
  constructor
  · intro h0
    have hsort : List.insertionSort strLe
        [CONNECT, DELETE, GET, HEAD, OPTIONS, PATCH, POST, PUT, TRACE] =
        [CONNECT, DELETE, GET, HEAD, OPTIONS, PATCH, POST, PUT, TRACE] := by
      decide
    constructor <;> simp [ApiHandler.initTypes, h0, hm, typesLoop, hsort]
  · intro h0
    have hcount : ¬ a.Types.length = 0 := fun hc =>
      h0 (List.length_eq_zero.mp hc)
    have hts := typesLoop_spec (List.insertionSort strLe a.Types) [] a.methods
    simp only [List.nil_append, List.length_nil, List.getLast?_nil] at hts
    have hcompute : a.initTypes =
        { a with
          Types := (procRest none (List.insertionSort strLe a.Types)).1,
          methods := a.methods ++
            (procRest none (List.insertionSort strLe a.Types)).2 } := by
      rw [ApiHandler.initTypes]
      simp only [if_neg hcount, Nat.sub_zero]
      rw [show a.Types.length = (List.insertionSort strLe a.Types).length from
        (List.length_insertionSort strLe a.Types).symm, hts]
    refine ⟨by rw [hcompute], ?_, ?_, ?_⟩
    · rw [hcompute]
      simp only [hm, List.nil_append]
      exact procRest_snd_map none (List.insertionSort strLe a.Types)
    · rw [hcompute]
      exact procRest_pairwise_lt none (List.insertionSort strLe a.Types)
        (List.sorted_insertionSort strLe a.Types)
        (fun p hpv => Option.noConfusion hpv)
    · intro x
      rw [hcompute]
      constructor
      · intro hx
        have hx2 : x ∈ List.insertionSort strLe a.Types :=
          (List.perm_insertionSort strLe a.Types).mem_iff.mpr hx
        rcases procRest_mem none (List.insertionSort strLe a.Types) x hx2 with
          hmem | hmem
        · exact hmem
        · exact Option.noConfusion hmem
      · intro hx
        exact (List.perm_insertionSort strLe a.Types).mem_iff.mp
          ((procRest_fst_sublist none
            (List.insertionSort strLe a.Types)).subset hx)

/-- Counterexample to claim C4 as stated: declared types
`["GET", "get", "POST"]` do not normalize to the two resolved methods
`["GET", "POST"]` — the sort puts `"get"` after `"POST"`, adjacent dedup
leaves all three entries, and resolution yields `["GET", "POST", "GET"]`,
an unsorted list with a duplicate. -/
theorem claim_C4_method_normalization_counterexample :
    ({ Desc := "", Types := ["GET", "get", "POST"], methods := [],
       Params := [], Handler := .func "f", id := "", suffix := "",
       inited := false } : ApiHandler).initTypes.methods =
      ["GET", "POST", "GET"] ∧
    ¬ ({ Desc := "", Types := ["GET", "get", "POST"], methods := [],
         Params := [], Handler := .func "f", id := "", suffix := "",
         inited := false } : ApiHandler).initTypes.methods =
        ["GET", "POST"] := by
  decide

/-- Witness for the amended claim C4 at the declaration with
types `["GET", "get", "POST"]`. -/
theorem claim_C4_method_normalization_amended_witness :
    ({ Desc := "", Types := ["GET", "get", "POST"], methods := [],
       Params := [], Handler := .func "f", id := "", suffix := "",
       inited := false } : ApiHandler).initTypes.Types =
      (procRest none (List.insertionSort strLe ["GET", "get", "POST"])).1 ∧
    ({ Desc := "", Types := ["GET", "get", "POST"], methods := [],
       Params := [], Handler := .func "f", id := "", suffix := "",
       inited := false } : ApiHandler).initTypes.methods =
      ({ Desc := "", Types := ["GET", "get", "POST"], methods := [],
         Params := [], Handler := .func "f", id := "", suffix := "",
         inited := false } : ApiHandler).initTypes.Types.map
        GetMethodFromType ∧
    ({ Desc := "", Types := ["GET", "get", "POST"], methods := [],
       Params := [], Handler := .func "f", id := "", suffix := "",
       inited := false } : ApiHandler).initTypes.Types.Pairwise strLt := by
  have h := claim_C4_method_normalization_amended
    { Desc := "", Types := ["GET", "get", "POST"], methods := [],
      Params := [], Handler := .func "f", id := "", suffix := "",
      inited := false } rfl
  have h2 := h.2 (by decide)
  exact ⟨h2.1, h2.2.1, h2.2.2.1⟩
